import Mathlib

/-!
Verification development for the easyMesh connection engine
(`src/WSN/eashMeshConnection.cpp`).

The C++ source is shallowly embedded: the connection registry
(`SimpleList<meshConnectionType>`) becomes a `List MeshConnection`, machine
integers become `Nat` with explicit `% 2^32` / `% 2^16` where the C code can
wrap, and the observable calls made by the handlers (transport disconnects
and sends, the application callbacks) are recorded as an explicit event
trace.  A connection's `subConnections` field holds, in the C code, the
serialized JSON text of the peer's subtree; here we store the subtree as a
recursive value (`SubForest`) and recover the exact text through
`printSubs` at the places where the C code operates on the text itself
(`String::indexOf` in `findConnection`).
-/

namespace EasyMesh

/-- `2^32`: the modulus of the `uint32_t` arithmetic used for timestamps. -/
def U32 : Nat := 4294967296

/-- `2^16`: the modulus of the `uint16_t` arithmetic used for node counts. -/
def U16 : Nat := 65536

mutual

/-- One node of a connection's subtree: a chip id together with the subtree
below it (the JSON shape `\x7b"chipId":N,"subs":[...]\x7d`). -/
inductive SubNode where
  | mk (chipId : Nat) (subs : SubForest)
deriving Repr

/-- An ordered sequence of subtree nodes (a JSON array of node objects).
A plain inductive rather than `List SubNode` so that the recursions below
are structural and kernel-computable. -/
inductive SubForest where
  | nil
  | cons (n : SubNode) (rest : SubForest)
deriving Repr

end

/-- The chip id at the root of a subtree node. -/
def SubNode.topChipId : SubNode → Nat
  | .mk chipId _ => chipId

/-- The children of a subtree node. -/
def SubNode.subs : SubNode → SubForest
  | .mk _ subs => subs

mutual

/-- Serialization of one subtree node, exactly as ArduinoJson's `printTo`
renders the objects built by `subConnectionJson`: the `subs` key is present
only when the node has children (the C code adds it only when
`sub->subConnections.length() != 0`). -/
def printNode : SubNode → String
  | SubNode.mk chipId .nil =>
      "\x7b\"chipId\":" ++ Nat.repr chipId ++ "\x7d"
  | SubNode.mk chipId (SubForest.cons n rest) =>
      "\x7b\"chipId\":" ++ Nat.repr chipId ++ ",\"subs\":[" ++
        printItems (SubForest.cons n rest) ++ "]\x7d"
termination_by structural n => n

/-- The comma-separated bodies of the array elements. -/
def printItems : SubForest → String
  | .nil => ""
  | .cons n .nil => printNode n
  | .cons n (SubForest.cons m rest) =>
      printNode n ++ "," ++ printItems (SubForest.cons m rest)
termination_by structural f => f

end

/-- Serialization of a subtree (a JSON array of nodes). -/
def printSubs (f : SubForest) : String :=
  "[" ++ printItems f ++ "]"

mutual

/-- Whether `x` is the chip id of the node or occurs in its children. -/
def nodeContains (x : Nat) : SubNode → Bool
  | SubNode.mk chipId subs => x == chipId || subtreeContains x subs
termination_by structural n => n

/-- Whether `x` occurs as the chip id of some node of the subtree, at any
depth.  This is the semantic "contains" notion of the specification. -/
def subtreeContains (x : Nat) : SubForest → Bool
  | .nil => false
  | .cons n rest => nodeContains x n || subtreeContains x rest
termination_by structural f => f

end

mutual

/-- The node count of one subtree node: itself plus its children. -/
def nodeNodeCount : SubNode → Nat
  | SubNode.mk _ subs => 1 + subtreeNodeCount subs
termination_by structural n => n

/-- The number of nodes of a subtree: each node contributes `1` plus the
count of its children, recursively (pure mathematical count, no wrap). -/
def subtreeNodeCount : SubForest → Nat
  | .nil => 0
  | .cons n rest => nodeNodeCount n + subtreeNodeCount rest
termination_by structural f => f

end

mutual

/-- The contribution of one parsed array element to `jsonSubConnCount`:
the recursive count of the string stored under its `subs` key (an absent or
short `subs` string counts `0` through the `length() < 3` early return). -/
def jsonSubConnCountNode : SubNode → Nat
  | SubNode.mk _ subs => jsonSubConnCount subs
termination_by structural n => n

/-- `easyMesh::jsonSubConnCount` (src lines 232-263), embedded over the
subtree value the JSON text denotes.  The C code accumulates
`count += (1 + jsonSubConnCount(subs_i))` in a `uint16_t`, so every step is
taken modulo `2^16`; since `(a % m + b) % m = (a + b) % m` the loop is the
modular sum written here.  The `subConns.length() < 3` early return is the
empty-array case.  (The C loop index is a `uint8_t`; arrays beyond 255
elements cannot arise from the bounded JSON buffers and are not modelled.) -/
def jsonSubConnCount : SubForest → Nat
  | .nil => 0
  | .cons n rest =>
      ((1 + jsonSubConnCountNode n) + jsonSubConnCount rest) % U16
termination_by structural f => f

end

/-! ### Substring search (`String::indexOf`) -/

/-- `leadsWith needle hay`: `needle` is an initial segment of `hay`. -/
def leadsWith : List Char → List Char → Bool
  | [], _ => true
  | _ :: _, [] => false
  | a :: as, b :: bs => a == b && leadsWith as bs

/-- `occursInChars needle hay`: `needle` occurs contiguously in `hay`. -/
def occursInChars (needle : List Char) : List Char → Bool
  | [] => leadsWith needle []
  | b :: bs => leadsWith needle (b :: bs) || occursInChars needle bs

/-- `Arduino String::indexOf(needle) != -1`: substring occurrence. -/
def occursIn (needle hay : String) : Bool :=
  occursInChars needle.data hay.data

/-! ### Data model -/

/-- Sync status, one per protocol per connection.  Modelled from the spec:
the `syncStatusType` enum is declared in `easyMesh.h`, which is not under
`src/`; section 3 of the spec gives the four states. -/
inductive SyncStatus where
  | NOT_NEEDED | NEEDED | IN_PROGRESS | COMPLETE
deriving Repr, DecidableEq

/-- The slice of the SDK `espconn` structure the source reads: the handle's
identity (pointer identity in C, used by `findConnection(espconn*)`), the
link state (compared against `ESPCONN_CLOSE`), and
`proto.tcp->local_port` (compared against the mesh port). -/
structure EspConn where
  id : Nat
  state : Nat
  local_port : Nat
deriving Repr, DecidableEq

/-- The SDK constant `ESPCONN_CLOSE` (from `espconn.h`, outside the
repository); only its distinctness from other states matters here. -/
def ESPCONN_CLOSE : Nat := 6

/-- `meshConnectionType` (declared in `easyMesh.h`, not under `src/`; the
fields and their uses are visible throughout the source).  `subConnections`
holds the peer's subtree; in C it is the serialized JSON text, here the
subtree value, with `printSubs` giving the exact text. -/
structure MeshConnection where
  esp_conn : EspConn
  chipId : Nat
  subConnections : SubForest
  lastRecieved : Nat
  nodeSyncStatus : SyncStatus
  timeSyncStatus : SyncStatus
  newConnection : Bool
  nodeSyncRequest : Nat
  sendQueue : List String
  sendReady : Bool
deriving Repr

/-- The node-local configuration the handlers read: the mesh listening port
(`_meshPort`), the `NODE_TIMEOUT` constant, and the node's own chip id
(`getChipId()`). -/
structure MeshConfig where
  meshPort : Nat
  nodeTimeout : Nat
  chipId : Nat
deriving Repr

/-- The message types of the wire protocol.  Modelled from the spec: the
`meshPackageType` enum lives in `easyMesh.h`, not under `src/`; the source
switches on exactly these five recognized tags, and `other` stands for any
unrecognized numeric tag (the `default` branch). -/
inductive MeshPackageType where
  | NODE_SYNC_REQUEST
  | NODE_SYNC_REPLY
  | TIME_SYNC
  | SINGLE
  | BROADCAST
  | other (tag : Nat)
deriving Repr, DecidableEq

/-- Whether a tag is one the `switch` in `meshRecvCb` recognizes. -/
def MeshPackageType.recognized : MeshPackageType → Bool
  | .other _ => false
  | _ => true

/-- A successfully decoded wire message: the fields `meshRecvCb` reads from
the parsed JSON root (`type`, `from`, `dest`, `msg`).  `fromId` is the
`from` field (`from` is a Lean keyword). -/
structure WireMsg where
  type : MeshPackageType
  fromId : Nat
  dest : Nat
  msg : String
deriving Repr

/-- The externally observable calls a handler makes, in order:
`espconn_disconnect`, `startNodeSync`, `startTimeSync` (each tagged with the
transport handle of the connection concerned), the new-connection
application callback (tagged with the handle of the connection whose
processing fired it), the application receive callback, a broadcast forward
to a connection, and a direct `espconn_send`. -/
inductive MeshEvent where
  | disconnect (handle : Nat)
  | startNodeSync (handle : Nat)
  | startTimeSync (handle : Nat)
  | newConnCb (handle : Nat) (adopt : Bool)
  | deliver (fromId : Nat) (msg : String)
  | forward (handle : Nat) (pkg : String)
  | espSend (handle : Nat) (pkg : String)
deriving Repr, DecidableEq

/-! ### List helpers (pointer-into-registry updates) -/

/-- Apply `f` to the element at index `i` (a C pointer into the registry);
out-of-range indices leave the list unchanged. -/
def updateAt (f : α → α) : Nat → List α → List α
  | _, [] => []
  | 0, a :: as => f a :: as
  | n + 1, a :: as => a :: updateAt f n as

theorem length_updateAt (f : α → α) : ∀ (i : Nat) (l : List α),
    (updateAt f i l).length = l.length
  | i, [] => by cases i <;> rfl
  | 0, _ :: _ => rfl
  | n + 1, _ :: as => congrArg Nat.succ (length_updateAt f n as)

theorem getElem?_updateAt_self (f : α → α) : ∀ (i : Nat) (l : List α),
    (updateAt f i l)[i]? = l[i]?.map f
  | _, [] => by simp [updateAt]
  | 0, a :: as => by simp [updateAt]
  | n + 1, a :: as => by
      simpa [updateAt] using getElem?_updateAt_self f n as

theorem getElem?_updateAt_ne (f : α → α) {i j : Nat} (h : j ≠ i) :
    ∀ l : List α, (updateAt f i l)[j]? = l[j]?
  | [] => by simp [updateAt]
  | a :: as => by
      match i, j, h with
      | 0, 0, h => exact absurd rfl h
      | 0, j + 1, _ => simp [updateAt]
      | i + 1, 0, _ => simp [updateAt]
      | i + 1, j + 1, h =>
          simpa [updateAt] using
            getElem?_updateAt_ne f (fun hji => h (congrArg Nat.succ hji)) as

/-! ### Registry lookups -/

/-- `easyMesh::findConnection(espconn*)` (src lines 146-161), returning the
position of the first registry entry whose transport handle is `arg`
(pointer equality in C, handle identity here). -/
def findEspIdx (arg : Nat) : List MeshConnection → Option Nat
  | [] => none
  | c :: rest =>
      if c.esp_conn.id == arg then some 0
      else (findEspIdx arg rest).map (· + 1)

/-- `easyMesh::findConnection(uint32_t chipId)` (src lines 119-140), as the
position of the hit: for each connection in registry order, first the direct
check `connection->chipId == chipId`, then the sub-connection check
`connection->subConnections.indexOf(String(chipId)) != -1` — a plain
substring search of the decimal rendering of `chipId` inside the serialized
subtree text. -/
def findConnectionIdx (chipId : Nat) : List MeshConnection → Option Nat
  | [] => none
  | c :: rest =>
      if c.chipId == chipId then some 0
      else if occursIn (Nat.repr chipId) (printSubs c.subConnections) then some 0
      else (findConnectionIdx chipId rest).map (· + 1)

/-- `easyMesh::findConnection(uint32_t)` as the returned connection
(`NULL` becomes `none`). -/
def findConnection (chipId : Nat) (conns : List MeshConnection) :
    Option MeshConnection :=
  (findConnectionIdx chipId conns).bind fun i => conns[i]?

/-! ### Maintenance tick -/

/-- `easyMesh::closeConnection` (src lines 38-42): instruct the transport to
disconnect.  The erasure of the entry (and the returned iteration cursor)
is the `none` branch of `manageStep` below. -/
def closeConnection (c : MeshConnection) : List MeshEvent :=
  [.disconnect c.esp_conn.id]

/-- The body of the `manageConnections` loop (src lines 52-112) for one
connection: `none` means the entry was erased (iteration then resumes with
the cursor past it).  `getNodeTime()` is the tick instant `now`; the
timestamp sums are `uint32_t` and therefore taken `% U32`.  The two
`switch` statements fall through from `NEEDED` into `IN_PROGRESS`: starting
a sync and being in one both end the connection's processing for this tick.
`adopt` stands for `adoptionCalc` (defined in easyMeshSync.cpp, outside
`src/`); its value is passed to the new-connection callback unchanged. -/
def manageStep (cfg : MeshConfig) (adopt : MeshConnection → Bool) (now : Nat)
    (c : MeshConnection) : Option MeshConnection × List MeshEvent :=
  if (c.lastRecieved + cfg.nodeTimeout) % U32 < now then
    (none, closeConnection c)
  else if c.esp_conn.state == ESPCONN_CLOSE then
    (none, closeConnection c)
  else
    match c.nodeSyncStatus with
    | .NEEDED =>
        (some { c with nodeSyncStatus := .IN_PROGRESS }, [.startNodeSync c.esp_conn.id])
    | .IN_PROGRESS => (some c, [])
    | _ =>
      match c.timeSyncStatus with
      | .NEEDED =>
          (some { c with timeSyncStatus := .IN_PROGRESS }, [.startTimeSync c.esp_conn.id])
      | .IN_PROGRESS => (some c, [])
      | _ =>
        if c.newConnection then
          (some { c with newConnection := false }, [.newConnCb c.esp_conn.id (adopt c)])
        else if c.nodeSyncRequest == 0 &&
            ((c.esp_conn.local_port == cfg.meshPort &&
                decide ((c.lastRecieved + cfg.nodeTimeout / 2) % U32 < now)) ||
             (c.esp_conn.local_port != cfg.meshPort &&
                decide ((c.lastRecieved + cfg.nodeTimeout * 3 / 4) % U32 < now))) then
          (some { c with nodeSyncStatus := .NEEDED }, [])
        else (some c, [])

/-- `easyMesh::manageConnections` (src lines 49-113): run `manageStep` over
the registry in order, erased entries dropping out of the resulting
registry, and concatenate the emitted events in order. -/
def manageConnections (cfg : MeshConfig) (adopt : MeshConnection → Bool)
    (now : Nat) : List MeshConnection → List MeshConnection × List MeshEvent
  | [] => ([], [])
  | c :: rest =>
      let s := manageStep cfg adopt now c
      let r := manageConnections cfg adopt now rest
      match s.1 with
      | none => (r.1, s.2 ++ r.2)
      | some c' => (c' :: r.1, s.2 ++ r.2)

/-! ### Reachable counts and the advertised subtree -/

/-- The loop of `easyMesh::connectionCount` (src lines 212-225), carrying
the running position `i` (the iterator, compared against the `exclude`
pointer) and the running `uint16_t` accumulator `count`. -/
def connectionCountGo (exclude : Option Nat) (i count : Nat) :
    List MeshConnection → Nat
  | [] => count
  | c :: rest =>
      connectionCountGo exclude (i + 1)
        (if some i = exclude then count
         else (count + (1 + jsonSubConnCount c.subConnections)) % U16) rest

/-- `easyMesh::connectionCount` (src lines 212-225): every connection other
than the excluded one contributes `1 + jsonSubConnCount(subConnections)` to
a `uint16_t` accumulator.  The excluded connection is identified by its
registry position (pointer comparison in C). -/
def connectionCount (exclude : Option Nat) (conns : List MeshConnection) : Nat :=
  connectionCountGo exclude 0 0 conns

/-- The specification's `reachableCount` (spec section 4.3), from position
`i`: the exact sum, over the connections other than the excluded one, of
`1` plus the recursive subtree node count — no modular wrap. -/
def reachableCountSpecFrom (exclude : Option Nat) (i : Nat) :
    List MeshConnection → Nat
  | [] => 0
  | c :: rest =>
      (if some i = exclude then 0 else 1 + subtreeNodeCount c.subConnections) +
        reachableCountSpecFrom exclude (i + 1) rest

/-- The specification's `reachableCount(excluding)`. -/
def reachableCountSpec (exclude : Option Nat) (conns : List MeshConnection) : Nat :=
  reachableCountSpecFrom exclude 0 conns

/-- The subtree value encoded by `easyMesh::subConnectionJson` (src lines
168-205), from position `i`: one node per connection other than the
excluded one and with `chipId != 0` ("anything too new" is skipped), each
carrying that connection's stored subtree as its children. -/
def subConnectionJsonTreeFrom (exclude : Option Nat) (i : Nat) :
    List MeshConnection → SubForest
  | [] => .nil
  | c :: rest =>
      if some i ≠ exclude ∧ c.chipId ≠ 0 then
        SubForest.cons (SubNode.mk c.chipId c.subConnections)
          (subConnectionJsonTreeFrom exclude (i + 1) rest)
      else subConnectionJsonTreeFrom exclude (i + 1) rest

/-- `easyMesh::subConnectionJson(exclude)`: the serialized text of the
encoded subtree. -/
def subConnectionJson (exclude : Option Nat) (conns : List MeshConnection) :
    String :=
  printSubs (subConnectionJsonTreeFrom exclude 0 conns)

/-- The number of connections other than the excluded one, from position `i`
(spec-side helper counter). -/
def includedCountFrom (exclude : Option Nat) (i : Nat) :
    List MeshConnection → Nat
  | [] => 0
  | _ :: rest =>
      (if some i = exclude then 0 else 1) + includedCountFrom exclude (i + 1) rest

/-- The number of connections other than the excluded one whose peer
identity is still unknown (`chipId = 0`), from position `i`. -/
def zeroIncludedCountFrom (exclude : Option Nat) (i : Nat) :
    List MeshConnection → Nat
  | [] => 0
  | c :: rest =>
      (if some i ≠ exclude ∧ c.chipId = 0 then 1 else 0) +
        zeroIncludedCountFrom exclude (i + 1) rest

/-! ### Message router -/

/-- Modelled from the spec: `sendPackage` is defined in easyMeshComm.cpp,
which is not under `src/`.  Spec section 4.5 (send discipline) and 7: with
no target connection the message is dropped silently; otherwise, if
`sendReady` is true the package is sent immediately and `sendReady`
cleared, else the package is appended to the connection's outbound
queue. -/
def sendPackage (target : Option Nat) (pkg : String)
    (conns : List MeshConnection) : List MeshConnection × List MeshEvent :=
  match target with
  | none => (conns, [])
  | some j =>
      match conns[j]? with
      | none => (conns, [])
      | some cj =>
          if cj.sendReady then
            (updateAt (fun x => { x with sendReady := false }) j conns,
             [.espSend cj.esp_conn.id pkg])
          else
            (updateAt (fun x => { x with sendQueue := x.sendQueue ++ [pkg] }) j conns,
             [])

/-- Modelled from the spec: the loop of `broadcastMessage` (easyMeshComm.cpp,
not under `src/`).  Spec section 4.5: forward the unchanged message to
every connection except the one it arrived on (position `excludeIdx`, the
`exclude` pointer in C), each forward going through the send discipline.
`i` is the current position. -/
def broadcastGo (pkg : String) (excludeIdx i : Nat) :
    List MeshConnection → List MeshConnection × List MeshEvent
  | [] => ([], [])
  | c :: rest =>
      let r := broadcastGo pkg excludeIdx (i + 1) rest
      if i == excludeIdx then (c :: r.1, r.2)
      else
        let c' := if c.sendReady then { c with sendReady := false }
                  else { c with sendQueue := c.sendQueue ++ [pkg] }
        (c' :: r.1, MeshEvent.forward c.esp_conn.id pkg :: r.2)

/-- Set `lastRecieved` of the connection at position `i` to `now`
(the write `receiveConn->lastRecieved = getNodeTime()` at src line 354). -/
def touch (now : Nat) (i : Nat) (conns : List MeshConnection) :
    List MeshConnection :=
  updateAt (fun c => { c with lastRecieved := now }) i conns

/-- `easyMesh::meshRecvCb` (src lines 301-356).  `arg` is the transport
handle the notification came in on, `data` the raw bytes.  `decode` stands
for the ArduinoJson parse (`jsonBuffer.parseObject`), `handleNodeSync` and
`handleTimeSync` for the protocol handlers defined in easyMeshSync.cpp
(outside `src/`): each takes the receiving connection and the decoded
message and returns the updated connection plus its emitted events.  An
unknown handle, a failed parse, or an unrecognized `type` drops the message
with the registry untouched; a dispatched message ends with the
`lastRecieved` refresh of the receiving connection.  For `SINGLE`, a
message for this node is delivered to the application callback, otherwise
the raw text (`String tempStr(data)`) is passed unchanged to
`sendPackage(findConnection(dest), tempStr)`.  For `BROADCAST`, the source
forwards through `broadcastMessage` first (line 344) and only then invokes
the local receive callback (line 345). -/
def meshRecvCb (cfg : MeshConfig)
    (handleNodeSync handleTimeSync :
      MeshConnection → WireMsg → MeshConnection × List MeshEvent)
    (decode : String → Option WireMsg) (now : Nat)
    (conns : List MeshConnection) (arg : Nat) (data : String) :
    List MeshConnection × List MeshEvent :=
  match findEspIdx arg conns with
  | none => (conns, [])
  | some i =>
      match conns[i]? with
      | none => (conns, [])
      | some receiveConn =>
          match decode data with
          | none => (conns, [])
          | some root =>
              match root.type with
              | .NODE_SYNC_REQUEST | .NODE_SYNC_REPLY =>
                  let r := handleNodeSync receiveConn root
                  (touch now i (updateAt (fun _ => r.1) i conns), r.2)
              | .TIME_SYNC =>
                  let r := handleTimeSync receiveConn root
                  (touch now i (updateAt (fun _ => r.1) i conns), r.2)
              | .SINGLE =>
                  if root.dest == cfg.chipId then
                    (touch now i conns, [.deliver root.fromId root.msg])
                  else
                    let r := sendPackage (findConnectionIdx root.dest conns) data conns
                    (touch now i r.1, r.2)
              | .BROADCAST =>
                  let r := broadcastGo data i 0 conns
                  (touch now i r.1, r.2 ++ [.deliver root.fromId root.msg])
              | .other _ => (conns, [])

/-- `easyMesh::meshSentCb` (src lines 363-383): on a send-completion
notification for handle `arg`, if the connection's queue is non-empty pop
the head and send it (`sendReady` untouched), else set `sendReady`. -/
def meshSentCb (arg : Nat) (conns : List MeshConnection) :
    List MeshConnection × List MeshEvent :=
  match findEspIdx arg conns with
  | none => (conns, [])
  | some i =>
      match conns[i]? with
      | none => (conns, [])
      | some c =>
          match c.sendQueue with
          | pkg :: rest =>
              (updateAt (fun x => { x with sendQueue := rest }) i conns,
               [.espSend c.esp_conn.id pkg])
          | [] =>
              (updateAt (fun x => { x with sendReady := true }) i conns, [])

/-- The freshly created `meshConnectionType newConn` of `meshConnectedCb`.
Modelled from the spec: the field initializers of `meshConnectionType` live
in `easyMesh.h`, not under `src/`; spec section 4.1 `add` gives
`peerChipId=0`, both sync statuses `NotNeeded`, `sendReady=true`, and the
connection is new with empty subtree and queue.  `lastRecieved` is set by
the source itself (line 275). -/
def newMeshConnection (handle : EspConn) (now : Nat) : MeshConnection :=
  { esp_conn := handle
    chipId := 0
    subConnections := .nil
    lastRecieved := now
    nodeSyncStatus := .NOT_NEEDED
    timeSyncStatus := .NOT_NEEDED
    newConnection := true
    nodeSyncRequest := 0
    sendQueue := []
    sendReady := true }

/-- `easyMesh::meshConnectedCb` (src lines 270-293): register the new
connection (`push_back`), then, when the local port is not the mesh
listening port (we are the station / Initiator), start node sync on the
registered connection (`_connections.end() - 1`).  The C code afterwards
writes `NEEDED` into the stack-local copy `newConn.timeSyncStatus` — after
the copy was already pushed — so the registered entry keeps
`timeSyncStatus = NOT_NEEDED`; a Listener-role (AP) connection starts
nothing. -/
def meshConnectedCb (cfg : MeshConfig) (now : Nat)
    (conns : List MeshConnection) (arg : EspConn) :
    List MeshConnection × List MeshEvent :=
  let newConn := newMeshConnection arg now
  let conns' := conns ++ [newConn]
  if arg.local_port != cfg.meshPort then
    (conns', [.startNodeSync newConn.esp_conn.id])
  else
    (conns', [])

/-! ### Concrete fixtures used by witnesses and counterexamples -/

/-- A registry entry with the given transport handle, peer chip id and
subtree; the remaining fields are the quiescent state of a fully synced
connection. -/
def testConn (hid chip : Nat) (subs : SubForest) : MeshConnection :=
  { esp_conn := { id := hid, state := 0, local_port := 5555 }
    chipId := chip
    subConnections := subs
    lastRecieved := 0
    nodeSyncStatus := .COMPLETE
    timeSyncStatus := .COMPLETE
    newConnection := false
    nodeSyncRequest := 0
    sendQueue := []
    sendReady := true }

/-- The subtree `[\x7b20,[]\x7d, \x7b21,[]\x7d]` of the spec's
`reachableCount` example. -/
def forest2021 : SubForest :=
  .cons (SubNode.mk 20 .nil) (.cons (SubNode.mk 21 .nil) .nil)

/-! ### C1: `findConnection(chipId)` -/

/-- C1: COUNTEREXAMPLE.  The claim states a connection is reported as
containing `chipId` in its subtree only when `chipId` actually occurs as a
node of that subtree, "not merely as a digit substring of another id".  On
the registry `[testConn 1 10 forest2021]` (peer 10, subtree nodes 20 and
21), `findConnection 2` returns that connection although `2` is neither
the peer id nor a node of the subtree: `String::indexOf` finds the digit
`"2"` inside `"20"` of the serialized subtree text. -/
theorem claim1_counterexample :
    findConnection 2 [testConn 1 10 forest2021] = some (testConn 1 10 forest2021) ∧
    (testConn 1 10 forest2021).chipId ≠ 2 ∧
    subtreeContains 2 (testConn 1 10 forest2021).subConnections = false :=
  ⟨rfl, by decide, by decide⟩

/-- C1 (amended): `findConnection(chipId)` scans the registry in order and
returns the first connection whose `chipId` matches directly or whose
serialized subtree text contains the decimal rendering of `chipId` as a
substring (so a direct match on a later connection does not take precedence
over an earlier substring hit, and a substring hit need not be an actual
subtree node); it returns none when no connection passes either test. -/
theorem claim1_amended (chipId : Nat) (conns : List MeshConnection) :
    findConnection chipId conns =
      conns.find? (fun c => c.chipId == chipId ||
        occursIn (Nat.repr chipId) (printSubs c.subConnections)) := by
  induction conns with
  | nil => rfl
  | cons c rest ih =>
      by_cases h1 : c.chipId == chipId
      · simp [findConnection, findConnectionIdx, List.find?, h1]
      · by_cases h2 : occursIn (Nat.repr chipId) (printSubs c.subConnections)
        · simp [findConnection, findConnectionIdx, List.find?, h1, h2]
        · simp only [findConnection, findConnectionIdx, List.find?, h1, h2,
            Bool.false_or, if_false, if_neg]
          rw [← ih]
          simp only [findConnection]
          cases findConnectionIdx chipId rest with
          | none => rfl
          | some i => simp

/-! ### C4 and C10: counting lemmas -/

/-- The number of top-level entries of a forest. -/
def forestLength : SubForest → Nat
  | .nil => 0
  | .cons _ rest => 1 + forestLength rest

/-- The `uint16_t` accumulation of `jsonSubConnCount` computes the pure
recursive node count modulo `2^16`. -/
theorem jsonSubConnCount_eq : ∀ f : SubForest,
    jsonSubConnCount f = subtreeNodeCount f % U16
  | .nil => rfl
  | .cons (SubNode.mk chipId subs) rest => by
      simp only [jsonSubConnCount, subtreeNodeCount, jsonSubConnCountNode,
        nodeNodeCount, jsonSubConnCount_eq subs, jsonSubConnCount_eq rest, U16]
      omega

theorem connectionCountGo_eq (ex : Option Nat) :
    ∀ (conns : List MeshConnection) (i cnt : Nat), cnt < U16 →
      connectionCountGo ex i cnt conns =
        (cnt + reachableCountSpecFrom ex i conns) % U16 := by
  intro conns
  induction conns with
  | nil =>
      intro i cnt h
      simp only [connectionCountGo, reachableCountSpecFrom, Nat.add_zero]
      exact (Nat.mod_eq_of_lt h).symm
  | cons c rest ih =>
      intro i cnt h
      by_cases hex : some i = ex
      · simp only [connectionCountGo, reachableCountSpecFrom, if_pos hex,
          ih (i + 1) cnt h, Nat.zero_add]
      · simp only [connectionCountGo, reachableCountSpecFrom, if_neg hex]
        rw [ih (i + 1) _ (Nat.mod_lt _ (by simp [U16]))]
        simp only [jsonSubConnCount_eq, U16]
        omega

/-- `connectionCount` agrees with the specification's exact reachable count
whenever the latter fits in a `uint16_t` (shared lemma). -/
theorem connectionCount_eq (ex : Option Nat) (conns : List MeshConnection)
    (h : reachableCountSpec ex conns < U16) :
    connectionCount ex conns = reachableCountSpec ex conns := by
  rw [connectionCount, connectionCountGo_eq ex conns 0 0 (by simp [U16]),
    Nat.zero_add, reachableCountSpec] at *
  exact Nat.mod_eq_of_lt h

/-- C4: `connectionCount(exclude)` equals the sum, over all connections
other than the excluded one, of `1` plus the recursive subtree node count
(each subtree node contributing `1` plus the count of its children),
whenever that sum fits in the `uint16_t` the C code accumulates in.  The
witness instantiates the spec's example: direct connection A with subtree
`[\x7b20,[]\x7d,\x7b21,[]\x7d]` and B with an empty subtree give
`connectionCount(none) = 4`. -/
theorem claim4 (ex : Option Nat) (conns : List MeshConnection)
    (h : reachableCountSpec ex conns < U16) :
    connectionCount ex conns = reachableCountSpec ex conns :=
  connectionCount_eq ex conns h

/-- C4 witness: the spec's concrete example evaluates to 4. -/
theorem claim4_witness :
    reachableCountSpec none [testConn 1 10 forest2021, testConn 2 11 .nil] < U16 ∧
    connectionCount none [testConn 1 10 forest2021, testConn 2 11 .nil] = 4 :=
  ⟨by decide,
   (claim4 none [testConn 1 10 forest2021, testConn 2 11 .nil] (by decide)).trans
     (by decide)⟩

theorem advertised_le (ex : Option Nat) :
    ∀ (conns : List MeshConnection) (i : Nat),
      subtreeNodeCount (subConnectionJsonTreeFrom ex i conns) +
          zeroIncludedCountFrom ex i conns ≤
        reachableCountSpecFrom ex i conns := by
  intro conns
  induction conns with
  | nil => intro i; simp [subConnectionJsonTreeFrom, zeroIncludedCountFrom,
      reachableCountSpecFrom, subtreeNodeCount]
  | cons c rest ih =>
      intro i
      by_cases hex : some i = ex
      · simp only [subConnectionJsonTreeFrom, zeroIncludedCountFrom,
          reachableCountSpecFrom, if_pos hex]
        have : ¬ (some i ≠ ex ∧ c.chipId ≠ 0) := fun hc => hc.1 hex
        rw [if_neg this]
        have : ¬ (some i ≠ ex ∧ c.chipId = 0) := fun hc => hc.1 hex
        rw [if_neg this]
        simpa using ih (i + 1)
      · by_cases hz : c.chipId = 0
        · simp only [subConnectionJsonTreeFrom, zeroIncludedCountFrom,
            reachableCountSpecFrom, if_neg hex]
          rw [if_neg (fun hc : some i ≠ ex ∧ c.chipId ≠ 0 => hc.2 hz),
            if_pos ⟨hex, hz⟩]
          have := ih (i + 1)
          omega
        · simp only [subConnectionJsonTreeFrom, zeroIncludedCountFrom,
            reachableCountSpecFrom, if_neg hex]
          rw [if_pos ⟨hex, hz⟩, if_neg (fun hc : some i ≠ ex ∧ c.chipId = 0 => hz hc.2)]
          simp only [subtreeNodeCount, nodeNodeCount]
          have := ih (i + 1)
          omega

theorem advertised_length (ex : Option Nat) :
    ∀ (conns : List MeshConnection) (i : Nat),
      forestLength (subConnectionJsonTreeFrom ex i conns) +
          zeroIncludedCountFrom ex i conns =
        includedCountFrom ex i conns := by
  intro conns
  induction conns with
  | nil => intro i; simp [subConnectionJsonTreeFrom, zeroIncludedCountFrom,
      includedCountFrom, forestLength]
  | cons c rest ih =>
      intro i
      by_cases hex : some i = ex
      · simp only [subConnectionJsonTreeFrom, zeroIncludedCountFrom,
          includedCountFrom, if_pos hex]
        rw [if_neg (fun hc : some i ≠ ex ∧ c.chipId ≠ 0 => hc.1 hex),
          if_neg (fun hc : some i ≠ ex ∧ c.chipId = 0 => hc.1 hex)]
        simpa using ih (i + 1)
      · by_cases hz : c.chipId = 0
        · simp only [subConnectionJsonTreeFrom, zeroIncludedCountFrom,
            includedCountFrom, if_neg hex]
          rw [if_neg (fun hc : some i ≠ ex ∧ c.chipId ≠ 0 => hc.2 hz),
            if_pos ⟨hex, hz⟩]
          have := ih (i + 1)
          omega
        · simp only [subConnectionJsonTreeFrom, zeroIncludedCountFrom,
            includedCountFrom, if_neg hex]
          rw [if_pos ⟨hex, hz⟩, if_neg (fun hc : some i ≠ ex ∧ c.chipId = 0 => hz hc.2)]
          simp only [forestLength]
          have := ih (i + 1)
          omega

/-- C10: the subtree encoded by `subConnectionJson(exclude)` omits the
excluded connection and every connection whose `chipId` is still `0`
(top-level entries of the encoded forest = included connections minus the
zero-chipId ones), whereas `connectionCount(exclude)` counts every
connection other than the excluded one, including those with `chipId = 0`;
hence the reachable count is at least the number of nodes advertised in the
encoded subtree and strictly exceeds it whenever a not-yet-identified
connection is present. -/
theorem claim10 (ex : Option Nat) (conns : List MeshConnection)
    (h : reachableCountSpec ex conns < U16) :
    (forestLength (subConnectionJsonTreeFrom ex 0 conns) +
        zeroIncludedCountFrom ex 0 conns = includedCountFrom ex 0 conns) ∧
    subtreeNodeCount (subConnectionJsonTreeFrom ex 0 conns) ≤
      connectionCount ex conns ∧
    (0 < zeroIncludedCountFrom ex 0 conns →
      subtreeNodeCount (subConnectionJsonTreeFrom ex 0 conns) <
        connectionCount ex conns) := by
  have hle := advertised_le ex conns 0
  have hcc := connectionCount_eq ex conns h
  refine ⟨advertised_length ex conns 0, ?_, ?_⟩
  · rw [hcc, reachableCountSpec]; omega
  · intro hz; rw [hcc, reachableCountSpec]; omega

/-- C10 witness: one registered connection with `chipId = 0` is advertised
as an empty subtree yet counted as one reachable node. -/
theorem claim10_witness :
    reachableCountSpec none [testConn 1 0 .nil] < U16 ∧
    subtreeNodeCount (subConnectionJsonTreeFrom none 0 [testConn 1 0 .nil]) <
      connectionCount none [testConn 1 0 .nil] :=
  ⟨by decide, (claim10 none [testConn 1 0 .nil] (by decide)).2.2 (by decide)⟩

/-! ### Tick lemmas, C3 -/

/-- The connection a tick event concerns: the transport handle it carries
(for `deliver`, the sender id; unused in that role). -/
def tickEventHandle : MeshEvent → Nat
  | .disconnect h => h
  | .startNodeSync h => h
  | .startTimeSync h => h
  | .newConnCb h _ => h
  | .deliver h _ => h
  | .forward h _ => h
  | .espSend h _ => h

theorem manageConnections_cons (cfg : MeshConfig) (adopt : MeshConnection → Bool)
    (now : Nat) (c0 : MeshConnection) (rest : List MeshConnection) :
    manageConnections cfg adopt now (c0 :: rest) =
      ((match (manageStep cfg adopt now c0).1 with
        | none => (manageConnections cfg adopt now rest).1
        | some c' => c' :: (manageConnections cfg adopt now rest).1),
       (manageStep cfg adopt now c0).2 ++ (manageConnections cfg adopt now rest).2) := by
  simp only [manageConnections]
  cases (manageStep cfg adopt now c0).1 <;> rfl

theorem manageStep_timeout (cfg : MeshConfig) (adopt : MeshConnection → Bool)
    (now : Nat) (c : MeshConnection)
    (h : (c.lastRecieved + cfg.nodeTimeout) % U32 < now) :
    manageStep cfg adopt now c = (none, [.disconnect c.esp_conn.id]) := by
  unfold manageStep
  rw [if_pos h]
  rfl

theorem manageStep_some_not_timeout {cfg : MeshConfig}
    {adopt : MeshConnection → Bool} {now : Nat} {c c' : MeshConnection}
    (h : (manageStep cfg adopt now c).1 = some c') :
    ¬ (c.lastRecieved + cfg.nodeTimeout) % U32 < now := by
  intro hcond
  rw [manageStep_timeout cfg adopt now c hcond] at h
  exact Option.noConfusion h

theorem manageStep_frame {cfg : MeshConfig} {adopt : MeshConnection → Bool}
    {now : Nat} {c c' : MeshConnection}
    (h : (manageStep cfg adopt now c).1 = some c') :
    c'.lastRecieved = c.lastRecieved ∧ c'.esp_conn = c.esp_conn ∧
      c'.newConnection = c.newConnection ∨
    c'.lastRecieved = c.lastRecieved ∧ c'.esp_conn = c.esp_conn ∧
      c'.newConnection = false := by
  unfold manageStep at h
  split at h
  · exact absurd h (by simp)
  · split at h
    · exact absurd h (by simp)
    · split at h
      · injection h with h; subst h; left; exact ⟨rfl, rfl, rfl⟩
      · injection h with h; subst h; left; exact ⟨rfl, rfl, rfl⟩
      · split at h
        · injection h with h; subst h; left; exact ⟨rfl, rfl, rfl⟩
        · injection h with h; subst h; left; exact ⟨rfl, rfl, rfl⟩
        · split at h
          · injection h with h; subst h; right; exact ⟨rfl, rfl, rfl⟩
          · split at h
            · injection h with h; subst h; left; exact ⟨rfl, rfl, rfl⟩
            · injection h with h; subst h; left; exact ⟨rfl, rfl, rfl⟩

theorem manageStep_some_lastRecieved {cfg : MeshConfig}
    {adopt : MeshConnection → Bool} {now : Nat} {c c' : MeshConnection}
    (h : (manageStep cfg adopt now c).1 = some c') :
    c'.lastRecieved = c.lastRecieved := by
  rcases manageStep_frame h with ⟨h1, _, _⟩ | ⟨h1, _, _⟩ <;> exact h1

theorem findConnectionIdx_getElem :
    ∀ (chipId : Nat) (conns : List MeshConnection) (i : Nat),
      findConnectionIdx chipId conns = some i → ∃ c, conns[i]? = some c := by
  intro chipId conns
  induction conns with
  | nil => intro i h; exact absurd h (by simp [findConnectionIdx])
  | cons c0 rest ih =>
      intro i h
      unfold findConnectionIdx at h
      split at h
      · injection h with h; subst h; exact ⟨c0, by simp⟩
      · split at h
        · injection h with h; subst h; exact ⟨c0, by simp⟩
        · cases hres : findConnectionIdx chipId rest with
          | none => rw [hres] at h; exact absurd h (by simp)
          | some j =>
              rw [hres] at h
              injection h with h
              subst h
              obtain ⟨c1, hc1⟩ := ih j hres
              exact ⟨c1, by simpa using hc1⟩

theorem getElem?_mem' : ∀ (l : List MeshConnection) (i : Nat) (c : MeshConnection),
    l[i]? = some c → c ∈ l := by
  intro l
  induction l with
  | nil => intro i c h; simp at h
  | cons a as ih =>
      intro i c h
      cases i with
      | zero => simp at h; simp [h]
      | succ j => simp at h; exact List.mem_cons_of_mem a (ih j c h)

/-- `findConnection` only ever returns a member of the registry. -/
theorem findConnection_mem {chipId : Nat} {conns : List MeshConnection}
    {c : MeshConnection} (h : findConnection chipId conns = some c) : c ∈ conns := by
  unfold findConnection at h
  cases hidx : findConnectionIdx chipId conns with
  | none => rw [hidx] at h; exact absurd h (by simp)
  | some i =>
      rw [hidx] at h
      exact getElem?_mem' conns i c h

/-- C3: a connection whose last reception lies more than `NODE_TIMEOUT`
before the tick instant (all quantities being in-range `uint32_t` values,
so the timestamp sum does not wrap) is evicted by the tick: the transport
is instructed to disconnect it, every connection remaining in the registry
is within the timeout, the stale connection itself is gone, and no
`findConnection` lookup over the post-tick registry can return it.
Removal happening mid-iteration is the recursion of `manageConnections`
itself: the erased entry's tail is processed next. -/
theorem claim3 (cfg : MeshConfig) (adopt : MeshConnection → Bool) (now : Nat)
    (conns : List MeshConnection) (c : MeshConnection) (hmem : c ∈ conns)
    (hnow : now < U32) (hstale : c.lastRecieved + cfg.nodeTimeout < now) :
    MeshEvent.disconnect c.esp_conn.id ∈ (manageConnections cfg adopt now conns).2 ∧
    (∀ c' ∈ (manageConnections cfg adopt now conns).1,
      ¬ c'.lastRecieved + cfg.nodeTimeout < now) ∧
    c ∉ (manageConnections cfg adopt now conns).1 ∧
    ∀ chipId, findConnection chipId (manageConnections cfg adopt now conns).1 ≠ some c := by
  have hcond : (c.lastRecieved + cfg.nodeTimeout) % U32 < now := by
    rw [Nat.mod_eq_of_lt (Nat.lt_trans hstale hnow)]
    exact hstale
  have hdisc : MeshEvent.disconnect c.esp_conn.id ∈
      (manageConnections cfg adopt now conns).2 := by
    induction conns with
    | nil => simp at hmem
    | cons c0 rest ih =>
        rw [manageConnections_cons]
        simp only [List.mem_append]
        rcases List.mem_cons.mp hmem with rfl | h
        · left
          rw [manageStep_timeout cfg adopt now c hcond]
          exact List.mem_singleton.mpr rfl
        · exact Or.inr (ih h)
  have hsurv : ∀ c' ∈ (manageConnections cfg adopt now conns).1,
      ¬ c'.lastRecieved + cfg.nodeTimeout < now := by
    clear hmem hdisc
    induction conns with
    | nil => intro c' h; simp [manageConnections] at h
    | cons c0 rest ih =>
        intro c' h hlt
        rw [manageConnections_cons] at h
        simp only at h
        cases hs : (manageStep cfg adopt now c0).1 with
        | none => rw [hs] at h; exact ih c' h hlt
        | some cS =>
            rw [hs] at h
            rcases List.mem_cons.mp h with rfl | h
            · have hnot := manageStep_some_not_timeout hs
              have heq := manageStep_some_lastRecieved hs
              rw [heq] at hlt
              exact hnot (by
                rw [Nat.mod_eq_of_lt (Nat.lt_trans hlt hnow)]
                exact hlt)
            · exact ih c' h hlt
  have hnotmem : c ∉ (manageConnections cfg adopt now conns).1 := by
    intro h
    exact hsurv c h hstale
  refine ⟨hdisc, hsurv, hnotmem, ?_⟩
  intro chipId hfind
  exact hnotmem (findConnection_mem hfind)

/-- C3 witness: a connection last heard from at time `0` is evicted by a
tick at time `100` with `NODE_TIMEOUT = 10`. -/
theorem claim3_witness :
    testConn 1 42 .nil ∈ [testConn 1 42 .nil] ∧
    (100 : Nat) < U32 ∧
    (testConn 1 42 .nil).lastRecieved +
      (MeshConfig.mk 5555 10 7).nodeTimeout < 100 ∧
    MeshEvent.disconnect 1 ∈
      (manageConnections (MeshConfig.mk 5555 10 7) (fun _ => false) 100
        [testConn 1 42 .nil]).2 :=
  ⟨List.mem_singleton.mpr rfl, by decide, by decide,
    (claim3 (MeshConfig.mk 5555 10 7) (fun _ => false) 100 [testConn 1 42 .nil]
      (testConn 1 42 .nil) (List.mem_singleton.mpr rfl) (by decide) (by decide)).1⟩

/-! ### C2: at most one sync start per connection per tick -/

theorem manageStep_cases (cfg : MeshConfig) (adopt : MeshConnection → Bool)
    (now : Nat) (c : MeshConnection) :
    manageStep cfg adopt now c = (none, [.disconnect c.esp_conn.id]) ∨
    manageStep cfg adopt now c =
      (some { c with nodeSyncStatus := .IN_PROGRESS }, [.startNodeSync c.esp_conn.id]) ∨
    manageStep cfg adopt now c = (some c, []) ∨
    manageStep cfg adopt now c =
      (some { c with timeSyncStatus := .IN_PROGRESS }, [.startTimeSync c.esp_conn.id]) ∨
    manageStep cfg adopt now c =
      (some { c with newConnection := false }, [.newConnCb c.esp_conn.id (adopt c)]) ∨
    manageStep cfg adopt now c = (some { c with nodeSyncStatus := .NEEDED }, []) := by
  unfold manageStep closeConnection
  (repeat' split) <;> simp

theorem manageStep_events_handle {cfg : MeshConfig} {adopt : MeshConnection → Bool}
    {now : Nat} {c : MeshConnection} {e : MeshEvent}
    (h : e ∈ (manageStep cfg adopt now c).2) : tickEventHandle e = c.esp_conn.id := by
  rcases manageStep_cases cfg adopt now c with h5 | h5 | h5 | h5 | h5 | h5 <;>
    rw [h5] at h <;> simp at h <;> subst h <;> rfl

theorem manageConnections_events_source {cfg : MeshConfig}
    {adopt : MeshConnection → Bool} {now : Nat} :
    ∀ (conns : List MeshConnection) (e : MeshEvent),
      e ∈ (manageConnections cfg adopt now conns).2 →
        ∃ c0 ∈ conns, e ∈ (manageStep cfg adopt now c0).2 := by
  intro conns
  induction conns with
  | nil => intro e h; simp [manageConnections] at h
  | cons c0 rest ih =>
      intro e h
      rw [manageConnections_cons] at h
      rcases List.mem_append.mp h with h | h
      · exact ⟨c0, List.mem_cons_self c0 rest, h⟩
      · obtain ⟨c1, hc1, he⟩ := ih e h
        exact ⟨c1, List.mem_cons_of_mem c0 hc1, he⟩

theorem manageStep_some_mem {cfg : MeshConfig} {adopt : MeshConnection → Bool}
    {now : Nat} :
    ∀ (conns : List MeshConnection) (c cS : MeshConnection), c ∈ conns →
      (manageStep cfg adopt now c).1 = some cS →
        cS ∈ (manageConnections cfg adopt now conns).1 := by
  intro conns
  induction conns with
  | nil => intro c cS hc; simp at hc
  | cons c0 rest ih =>
      intro c cS hc hs
      rw [manageConnections_cons]
      rcases List.mem_cons.mp hc with rfl | hcr
      · rw [hs]
        exact List.mem_cons_self cS _
      · cases h0 : (manageStep cfg adopt now c0).1 with
        | none => exact ih c cS hcr hs
        | some c0' => exact List.mem_cons_of_mem c0' (ih c cS hcr hs)

theorem count_singleton_ne {a b : MeshEvent} (h : ¬ b = a) :
    List.count a [b] = 0 := by
  simp [List.count_cons, h]

theorem count_singleton_self (a : MeshEvent) : List.count a [a] = 1 := by
  simp

/-- With pairwise-distinct transport handles, an event of the tick trace
whose handle is `c`'s comes from `c`'s own step. -/
theorem tick_event_of_conn {cfg : MeshConfig} {adopt : MeshConnection → Bool}
    {now : Nat} {conns : List MeshConnection}
    (hnd : (conns.map fun x => x.esp_conn.id).Nodup) {c : MeshConnection}
    (hc : c ∈ conns) {e : MeshEvent}
    (he : e ∈ (manageConnections cfg adopt now conns).2)
    (hhandle : tickEventHandle e = c.esp_conn.id) :
    e ∈ (manageStep cfg adopt now c).2 := by
  obtain ⟨c1, hc1, he1⟩ := manageConnections_events_source conns e he
  have h1 : tickEventHandle e = c1.esp_conn.id := manageStep_events_handle he1
  have : c1 = c := by
    apply List.inj_on_of_nodup_map hnd hc1 hc
    rw [← h1, hhandle]
  subst this
  exact he1

/-- Per tick, the node-sync and time-sync start events for any one handle
sum to at most one (shared lemma behind the per-connection claim). -/
theorem tick_sync_count (cfg : MeshConfig) (adopt : MeshConnection → Bool)
    (now : Nat) :
    ∀ (conns : List MeshConnection),
      (conns.map fun x => x.esp_conn.id).Nodup → ∀ hid : Nat,
        (manageConnections cfg adopt now conns).2.count (.startNodeSync hid) +
          (manageConnections cfg adopt now conns).2.count (.startTimeSync hid) ≤ 1 := by
  intro conns
  induction conns with
  | nil => intro _ hid; simp [manageConnections]
  | cons c0 rest ih =>
      intro hnd hid
      rw [manageConnections_cons]
      simp only [List.count_append]
      have hnd2 : ((c0 :: rest).map fun x => x.esp_conn.id).Nodup := hnd
      rw [List.map_cons, List.nodup_cons] at hnd2
      by_cases heq : c0.esp_conn.id = hid
      · -- events for this handle can only come from the head's step
        have hrest : ∀ e : MeshEvent, tickEventHandle e = hid →
            e ∉ (manageConnections cfg adopt now rest).2 := by
          intro e hhandle hmem
          obtain ⟨c1, hc1, he1⟩ := manageConnections_events_source rest e hmem
          have h1 := manageStep_events_handle he1
          apply hnd2.1
          have hco : c0.esp_conn.id = c1.esp_conn.id := by rw [heq, ← hhandle, h1]
          rw [hco]
          exact List.mem_map_of_mem _ hc1
        rw [List.count_eq_zero.mpr (hrest (.startNodeSync hid) rfl),
          List.count_eq_zero.mpr (hrest (.startTimeSync hid) rfl)]
        rcases manageStep_cases cfg adopt now c0 with h | h | h | h | h | h <;>
          rw [h] <;> subst heq
        · rw [count_singleton_ne (fun hc => MeshEvent.noConfusion hc),
            count_singleton_ne (fun hc => MeshEvent.noConfusion hc)]
          simp
        · rw [count_singleton_self, count_singleton_ne
            (fun hc => MeshEvent.noConfusion hc)]
        · simp
        · rw [count_singleton_ne (fun hc => MeshEvent.noConfusion hc),
            count_singleton_self]
        · rw [count_singleton_ne (fun hc => MeshEvent.noConfusion hc),
            count_singleton_ne (fun hc => MeshEvent.noConfusion hc)]
          simp
        · simp
      · -- the head's step events carry the head's handle, not this one
        have hstep : ∀ e : MeshEvent, tickEventHandle e = hid →
            e ∉ (manageStep cfg adopt now c0).2 := by
          intro e hhandle hmem
          exact heq ((manageStep_events_handle hmem).symm.trans hhandle)
        rw [List.count_eq_zero.mpr (hstep (.startNodeSync hid) rfl),
          List.count_eq_zero.mpr (hstep (.startTimeSync hid) rfl)]
        simpa using ih hnd2.2 hid

/-- C2: per tick and per connection (connections being identified by their
pairwise-distinct transport handles), `manageConnections` starts at most one
of node sync and time sync — their start events sum to at most one — and
when a sync is started for a connection, the new-connection notification is
not fired for it and the surviving registry entry keeps its
`newConnection` flag and receives exactly the started sync's
`IN_PROGRESS` transition (in particular the staleness re-flag to `NEEDED`
is skipped). -/
theorem claim2 (cfg : MeshConfig) (adopt : MeshConnection → Bool) (now : Nat)
    (conns : List MeshConnection)
    (hnd : (conns.map fun x => x.esp_conn.id).Nodup)
    (c : MeshConnection) (hc : c ∈ conns) :
    (manageConnections cfg adopt now conns).2.count
        (MeshEvent.startNodeSync c.esp_conn.id) +
      (manageConnections cfg adopt now conns).2.count
        (MeshEvent.startTimeSync c.esp_conn.id) ≤ 1 ∧
    (MeshEvent.startNodeSync c.esp_conn.id ∈ (manageConnections cfg adopt now conns).2 →
      (∀ b, MeshEvent.newConnCb c.esp_conn.id b ∉
        (manageConnections cfg adopt now conns).2) ∧
      ∃ c' ∈ (manageConnections cfg adopt now conns).1,
        c'.esp_conn = c.esp_conn ∧ c'.newConnection = c.newConnection ∧
        c'.nodeSyncStatus = .IN_PROGRESS ∧ c'.timeSyncStatus = c.timeSyncStatus) ∧
    (MeshEvent.startTimeSync c.esp_conn.id ∈ (manageConnections cfg adopt now conns).2 →
      (∀ b, MeshEvent.newConnCb c.esp_conn.id b ∉
        (manageConnections cfg adopt now conns).2) ∧
      ∃ c' ∈ (manageConnections cfg adopt now conns).1,
        c'.esp_conn = c.esp_conn ∧ c'.newConnection = c.newConnection ∧
        c'.nodeSyncStatus = c.nodeSyncStatus ∧ c'.timeSyncStatus = .IN_PROGRESS) := by
  refine ⟨tick_sync_count cfg adopt now conns hnd c.esp_conn.id, ?_, ?_⟩
  · intro hstart
    have hstep : MeshEvent.startNodeSync c.esp_conn.id ∈
        (manageStep cfg adopt now c).2 := tick_event_of_conn hnd hc hstart rfl
    have hnocb : ∀ b, MeshEvent.newConnCb c.esp_conn.id b ∉
        (manageConnections cfg adopt now conns).2 := by
      intro b hb
      have hb' := tick_event_of_conn hnd hc hb rfl
      rcases manageStep_cases cfg adopt now c with h | h | h | h | h | h <;>
        rw [h] at hstep hb' <;> simp at hstep hb'
    refine ⟨hnocb, ?_⟩
    rcases manageStep_cases cfg adopt now c with h | h | h | h | h | h <;>
      rw [h] at hstep <;> simp at hstep
    have hsome : (manageStep cfg adopt now c).1 =
        some { c with nodeSyncStatus := .IN_PROGRESS } := by rw [h]
    exact ⟨_, manageStep_some_mem conns c _ hc hsome, rfl, rfl, rfl, rfl⟩
  · intro hstart
    have hstep : MeshEvent.startTimeSync c.esp_conn.id ∈
        (manageStep cfg adopt now c).2 := tick_event_of_conn hnd hc hstart rfl
    have hnocb : ∀ b, MeshEvent.newConnCb c.esp_conn.id b ∉
        (manageConnections cfg adopt now conns).2 := by
      intro b hb
      have hb' := tick_event_of_conn hnd hc hb rfl
      rcases manageStep_cases cfg adopt now c with h | h | h | h | h | h <;>
        rw [h] at hstep hb' <;> simp at hstep hb'
    refine ⟨hnocb, ?_⟩
    rcases manageStep_cases cfg adopt now c with h | h | h | h | h | h <;>
      rw [h] at hstep <;> simp at hstep
    have hsome : (manageStep cfg adopt now c).1 =
        some { c with timeSyncStatus := .IN_PROGRESS } := by rw [h]
    exact ⟨_, manageStep_some_mem conns c _ hc hsome, rfl, rfl, rfl, rfl⟩

/-- C2 witness: on a one-connection registry the tick's sync-start events
for that connection sum to at most one. -/
theorem claim2_witness :
    (([testConn 1 10 forest2021].map fun x => x.esp_conn.id)).Nodup ∧
    testConn 1 10 forest2021 ∈ [testConn 1 10 forest2021] ∧
    (manageConnections (MeshConfig.mk 5555 10 7) (fun _ => false) 5
        [testConn 1 10 forest2021]).2.count
      (MeshEvent.startNodeSync (testConn 1 10 forest2021).esp_conn.id) +
    (manageConnections (MeshConfig.mk 5555 10 7) (fun _ => false) 5
        [testConn 1 10 forest2021]).2.count
      (MeshEvent.startTimeSync (testConn 1 10 forest2021).esp_conn.id) ≤ 1 :=
  ⟨by decide, List.mem_singleton.mpr rfl,
    (claim2 (MeshConfig.mk 5555 10 7) (fun _ => false) 5 [testConn 1 10 forest2021]
      (by decide) (testConn 1 10 forest2021) (List.mem_singleton.mpr rfl)).1⟩

/-! ### C9: connection creation -/

/-- C9: `meshConnectedCb` registers exactly one new connection, appended to
the registry, with `peerChipId = 0`, `lastRecieved` set to the current node
time and `timeSyncStatus = NOT_NEEDED` (the post-`push_back` write of
`NEEDED` hits the dead stack copy, not the registry); when the local port
differs from the mesh listening port (Initiator role) node sync is started
immediately on the registered connection's handle, and a Listener-role
connection starts nothing. -/
theorem claim9 (cfg : MeshConfig) (now : Nat) (conns : List MeshConnection)
    (arg : EspConn) :
    (meshConnectedCb cfg now conns arg).1 = conns ++ [newMeshConnection arg now] ∧
    (newMeshConnection arg now).chipId = 0 ∧
    (newMeshConnection arg now).lastRecieved = now ∧
    (newMeshConnection arg now).timeSyncStatus = .NOT_NEEDED ∧
    (newMeshConnection arg now).esp_conn = arg ∧
    (arg.local_port ≠ cfg.meshPort →
      (meshConnectedCb cfg now conns arg).2 =
        [.startNodeSync (newMeshConnection arg now).esp_conn.id]) ∧
    (arg.local_port = cfg.meshPort → (meshConnectedCb cfg now conns arg).2 = []) := by
  refine ⟨?_, rfl, rfl, rfl, rfl, ?_, ?_⟩
  · unfold meshConnectedCb
    split <;> rfl
  · intro h
    simp [meshConnectedCb, h]
  · intro h
    simp [meshConnectedCb, h]

/-- C9 witness: a station-side link (local port 4444, mesh port 5555) is
registered and node sync starts on its handle at once. -/
theorem claim9_witness :
    (EspConn.mk 9 0 4444).local_port ≠ (MeshConfig.mk 5555 10 7).meshPort ∧
    (meshConnectedCb (MeshConfig.mk 5555 10 7) 42 [] (EspConn.mk 9 0 4444)).2 =
      [.startNodeSync 9] :=
  ⟨by decide,
    (claim9 (MeshConfig.mk 5555 10 7) 42 [] (EspConn.mk 9 0 4444)).2.2.2.2.2.1
      (by decide)⟩

/-! ### C7: send-completion discipline -/

theorem findEspIdx_updateAt (arg : Nat) (f : MeshConnection → MeshConnection)
    (hf : ∀ x, (f x).esp_conn = x.esp_conn) :
    ∀ (conns : List MeshConnection) (j : Nat),
      findEspIdx arg (updateAt f j conns) = findEspIdx arg conns := by
  intro conns
  induction conns with
  | nil => intro j; cases j <;> rfl
  | cons c0 rest ih =>
      intro j
      cases j with
      | zero => simp [updateAt, findEspIdx, hf c0]
      | succ n => simp [updateAt, findEspIdx, ih n]

theorem meshSentCb_pop {arg i : Nat} {c : MeshConnection}
    {conns : List MeshConnection} (hidx : findEspIdx arg conns = some i)
    (hget : conns[i]? = some c) {pkg : String} {rest : List String}
    (hq : c.sendQueue = pkg :: rest) :
    meshSentCb arg conns =
      (updateAt (fun x => { x with sendQueue := rest }) i conns,
       [.espSend c.esp_conn.id pkg]) := by
  simp only [meshSentCb, hidx, hget, hq]

theorem meshSentCb_empty {arg i : Nat} {c : MeshConnection}
    {conns : List MeshConnection} (hidx : findEspIdx arg conns = some i)
    (hget : conns[i]? = some c) (hq : c.sendQueue = []) :
    meshSentCb arg conns =
      (updateAt (fun x => { x with sendReady := true }) i conns, []) := by
  simp only [meshSentCb, hidx, hget, hq]

/-- C7: on a send-completion notification, a non-empty outbound queue has
its head dequeued and sent (the entry keeps its `sendReady` flag, so a
false flag stays false, and keeps every other field), an empty queue sets
`sendReady`; consequently two queued messages are delivered in FIFO order
across two consecutive notifications. -/
theorem claim7 (conns : List MeshConnection) (arg i : Nat) (c : MeshConnection)
    (hidx : findEspIdx arg conns = some i) (hget : conns[i]? = some c) :
    (∀ (pkg : String) (rest : List String), c.sendQueue = pkg :: rest →
      (meshSentCb arg conns).2 = [.espSend c.esp_conn.id pkg] ∧
      (meshSentCb arg conns).1[i]? = some { c with sendQueue := rest } ∧
      ∀ j, j ≠ i → (meshSentCb arg conns).1[j]? = conns[j]?) ∧
    (c.sendQueue = [] →
      (meshSentCb arg conns).2 = [] ∧
      (meshSentCb arg conns).1[i]? = some { c with sendReady := true } ∧
      ∀ j, j ≠ i → (meshSentCb arg conns).1[j]? = conns[j]?) ∧
    (∀ m1 m2 : String, c.sendQueue = [m1, m2] →
      (meshSentCb arg conns).2 ++ (meshSentCb arg (meshSentCb arg conns).1).2 =
        [.espSend c.esp_conn.id m1, .espSend c.esp_conn.id m2]) := by
  refine ⟨?_, ?_, ?_⟩
  · intro pkg rest hq
    rw [meshSentCb_pop hidx hget hq]
    refine ⟨rfl, ?_, ?_⟩
    · rw [getElem?_updateAt_self, hget]
      rfl
    · intro j hj
      exact getElem?_updateAt_ne _ hj conns
  · intro hq
    rw [meshSentCb_empty hidx hget hq]
    refine ⟨rfl, ?_, ?_⟩
    · rw [getElem?_updateAt_self, hget]
      rfl
    · intro j hj
      exact getElem?_updateAt_ne _ hj conns
  · intro m1 m2 hq
    rw [meshSentCb_pop hidx hget hq]
    have hidx2 : findEspIdx arg
        (updateAt (fun x => { x with sendQueue := [m2] }) i conns) = some i := by
      rw [findEspIdx_updateAt arg (fun x => { x with sendQueue := [m2] })
        (fun x => rfl) conns i]
      exact hidx
    have hget2 : (updateAt (fun x => { x with sendQueue := [m2] }) i conns)[i]? =
        some { c with sendQueue := [m2] } := by
      rw [getElem?_updateAt_self, hget]
      rfl
    rw [meshSentCb_pop hidx2 hget2 rfl]
    rfl

/-- C7 witness: a connection with `sendReady = false` and two queued
messages delivers them in order over two completion callbacks. -/
theorem claim7_witness :
    findEspIdx 1 [{ testConn 1 10 SubForest.nil with
      sendQueue := ["m1", "m2"], sendReady := false }] = some 0 ∧
    (meshSentCb 1 [{ testConn 1 10 SubForest.nil with
        sendQueue := ["m1", "m2"], sendReady := false }]).2 ++
      (meshSentCb 1 (meshSentCb 1 [{ testConn 1 10 SubForest.nil with
        sendQueue := ["m1", "m2"], sendReady := false }]).1).2 =
      [.espSend 1 "m1", .espSend 1 "m2"] :=
  ⟨rfl,
    (claim7 [{ testConn 1 10 SubForest.nil with
        sendQueue := ["m1", "m2"], sendReady := false }] 1 0
      { testConn 1 10 SubForest.nil with
        sendQueue := ["m1", "m2"], sendReady := false } rfl rfl).2.2 "m1" "m2" rfl⟩

/-! ### Receive-path lemmas -/

theorem getElem?_updateAt_map {α β : Type} (f : α → α) (g : α → β)
    (hfg : ∀ x, g (f x) = g x) (j k : Nat) (l : List α) :
    ((updateAt f j l)[k]?).map g = (l[k]?).map g := by
  by_cases h : k = j
  · subst h
    rw [getElem?_updateAt_self]
    cases l[k]? <;> simp [hfg]
  · rw [getElem?_updateAt_ne f h]

theorem getElem?_isSome_len :
    ∀ (l1 l2 : List MeshConnection), l1.length = l2.length →
      ∀ (i : Nat) (c : MeshConnection), l2[i]? = some c →
        ∃ c', l1[i]? = some c' := by
  intro l1
  induction l1 with
  | nil =>
      intro l2 hlen i c h
      cases l2 with
      | nil => simp at h
      | cons b bs => simp at hlen
  | cons a as ih =>
      intro l2 hlen i c h
      cases l2 with
      | nil => simp at h
      | cons b bs =>
          cases i with
          | zero => exact ⟨a, by simp⟩
          | succ n =>
              obtain ⟨c', hc'⟩ := ih bs (by simpa using hlen) n c (by simpa using h)
              exact ⟨c', by simpa using hc'⟩

theorem findEspIdx_getElem :
    ∀ (arg : Nat) (conns : List MeshConnection) (i : Nat),
      findEspIdx arg conns = some i → ∃ c, conns[i]? = some c := by
  intro arg conns
  induction conns with
  | nil => intro i h; exact absurd h (by simp [findEspIdx])
  | cons c0 rest ih =>
      intro i h
      unfold findEspIdx at h
      split at h
      · injection h with h; subst h; exact ⟨c0, by simp⟩
      · cases hres : findEspIdx arg rest with
        | none => rw [hres] at h; exact absurd h (by simp)
        | some j =>
            rw [hres] at h
            injection h with h
            subst h
            obtain ⟨c1, hc1⟩ := ih j hres
            exact ⟨c1, by simpa using hc1⟩

theorem broadcastGo_events_all (pkg : String) (ex : Nat) :
    ∀ (conns : List MeshConnection) (i : Nat), ex < i →
      (broadcastGo pkg ex i conns).2 =
        conns.map fun c => MeshEvent.forward c.esp_conn.id pkg := by
  intro conns
  induction conns with
  | nil => intro i _; rfl
  | cons c0 rest ih =>
      intro i hi
      have hne : (i == ex) = false := by
        simp only [beq_eq_false_iff_ne, ne_eq]
        omega
      simp only [broadcastGo, hne, Bool.false_eq_true, if_false, List.map_cons]
      rw [ih (i + 1) (Nat.lt_succ_of_lt hi)]

theorem broadcastGo_events (pkg : String) :
    ∀ (conns : List MeshConnection) (ex i : Nat), i ≤ ex →
      (broadcastGo pkg ex i conns).2 =
        (conns.eraseIdx (ex - i)).map fun c => MeshEvent.forward c.esp_conn.id pkg := by
  intro conns
  induction conns with
  | nil => intro ex i _; cases ex - i <;> rfl
  | cons c0 rest ih =>
      intro ex i hi
      by_cases heq : i = ex
      · subst heq
        simp only [broadcastGo, beq_self_eq_true, if_true, Nat.sub_self,
          List.eraseIdx_cons_zero]
        exact broadcastGo_events_all pkg i rest (i + 1) (Nat.lt_succ_self i)
      · have hlt : i < ex := Nat.lt_of_le_of_ne hi heq
        have hne : (i == ex) = false := by
          simp only [beq_eq_false_iff_ne, ne_eq]
          exact heq
        have hsub : ex - i = (ex - (i + 1)) + 1 := by omega
        simp only [broadcastGo, hne, Bool.false_eq_true, if_false, hsub,
          List.eraseIdx_cons_succ, List.map_cons]
        rw [ih ex (i + 1) hlt]

theorem broadcastGo_length (pkg : String) (ex : Nat) :
    ∀ (conns : List MeshConnection) (i : Nat),
      (broadcastGo pkg ex i conns).1.length = conns.length := by
  intro conns
  induction conns with
  | nil => intro i; rfl
  | cons c0 rest ih =>
      intro i
      by_cases heq : (i == ex) = true <;>
        simp [broadcastGo, heq, ih (i + 1)]

theorem broadcastGo_lastRecieved (pkg : String) (ex : Nat) :
    ∀ (conns : List MeshConnection) (i k : Nat),
      (((broadcastGo pkg ex i conns).1[k]?).map fun c => c.lastRecieved) =
        ((conns[k]?).map fun c => c.lastRecieved) := by
  intro conns
  induction conns with
  | nil => intro i k; rfl
  | cons c0 rest ih =>
      intro i k
      by_cases heq : (i == ex) = true
      · simp only [broadcastGo, heq, if_true]
        cases k with
        | zero => simp
        | succ n => simpa using ih (i + 1) n
      · simp only [broadcastGo, heq, Bool.false_eq_true, if_false]
        cases k with
        | zero => by_cases hr : c0.sendReady <;> simp [hr]
        | succ n =>
            by_cases hr : c0.sendReady <;> simpa [hr] using ih (i + 1) n

theorem sendPackage_length (t : Option Nat) (pkg : String)
    (conns : List MeshConnection) :
    (sendPackage t pkg conns).1.length = conns.length := by
  cases t with
  | none => rfl
  | some j =>
      cases h : conns[j]? with
      | none => simp [sendPackage, h]
      | some cj =>
          by_cases hr : cj.sendReady <;>
            simp [sendPackage, h, hr, length_updateAt]

theorem sendPackage_lastRecieved (t : Option Nat) (pkg : String)
    (conns : List MeshConnection) (k : Nat) :
    (((sendPackage t pkg conns).1[k]?).map fun c => c.lastRecieved) =
      ((conns[k]?).map fun c => c.lastRecieved) := by
  cases t with
  | none => rfl
  | some j =>
      cases h : conns[j]? with
      | none => simp [sendPackage, h]
      | some cj =>
          by_cases hr : cj.sendReady
          · simp only [sendPackage, h, hr, if_true]
            exact getElem?_updateAt_map (fun x => { x with sendReady := false })
              (fun c => c.lastRecieved) (fun x => rfl) j k conns
          · simp only [sendPackage, h, hr, Bool.false_eq_true, if_false]
            exact getElem?_updateAt_map
              (fun x => { x with sendQueue := x.sendQueue ++ [pkg] })
              (fun c => c.lastRecieved) (fun x => rfl) j k conns

theorem sendPackage_sendQueue_map (t : Option Nat) (pkg : String)
    (conns : List MeshConnection) (hsr : ∀ j cj, t = some j → conns[j]? = some cj →
      cj.sendReady = true) (k : Nat) :
    (((sendPackage t pkg conns).1[k]?).map fun c => c.sendQueue) =
      ((conns[k]?).map fun c => c.sendQueue) := by
  cases t with
  | none => rfl
  | some j =>
      cases h : conns[j]? with
      | none => simp [sendPackage, h]
      | some cj =>
          rw [sendPackage]
          simp only [h, hsr j cj rfl h, if_true]
          exact getElem?_updateAt_map (fun x => { x with sendReady := false })
            (fun c => c.sendQueue) (fun x => rfl) j k conns

theorem touch_getElem_self {now i : Nat} {X : List MeshConnection}
    {c : MeshConnection} (h : X[i]? = some c) :
    (((touch now i X)[i]?).map fun x => x.lastRecieved) = some now := by
  rw [touch, getElem?_updateAt_self, h]
  rfl

theorem touch_getElem_ne {now i k : Nat} (hk : k ≠ i) (X : List MeshConnection) :
    (touch now i X)[k]? = X[k]? := by
  rw [touch, getElem?_updateAt_ne _ hk]

/-! ### C6: drop policy and liveness refresh -/

/-- C6: an inbound notification on an unknown transport handle, or whose
payload fails to decode, or whose decoded `type` is unrecognized, leaves
the registry exactly as it was and emits no call (logged and dropped — in
particular no connection's `lastRecieved` moves); a successfully decoded
message dispatched to a recognized handler refreshes exactly the receiving
connection's `lastRecieved` to the current node time, every other
connection's `lastRecieved` being untouched in all cases. -/
theorem claim6 (cfg : MeshConfig)
    (handleNodeSync handleTimeSync :
      MeshConnection → WireMsg → MeshConnection × List MeshEvent)
    (decode : String → Option WireMsg) (now : Nat)
    (conns : List MeshConnection) (arg : Nat) (data : String) :
    (findEspIdx arg conns = none →
      meshRecvCb cfg handleNodeSync handleTimeSync decode now conns arg data =
        (conns, [])) ∧
    (decode data = none →
      meshRecvCb cfg handleNodeSync handleTimeSync decode now conns arg data =
        (conns, [])) ∧
    (∀ (i : Nat) (root : WireMsg), findEspIdx arg conns = some i →
      decode data = some root → root.type.recognized = false →
      meshRecvCb cfg handleNodeSync handleTimeSync decode now conns arg data =
        (conns, [])) ∧
    (∀ (i : Nat) (root : WireMsg), findEspIdx arg conns = some i →
      decode data = some root → root.type.recognized = true →
      ((((meshRecvCb cfg handleNodeSync handleTimeSync decode now conns arg
          data).1)[i]?).map fun x => x.lastRecieved) = some now) ∧
    (∀ (i k : Nat), findEspIdx arg conns = some i → k ≠ i →
      ((((meshRecvCb cfg handleNodeSync handleTimeSync decode now conns arg
          data).1)[k]?).map fun x => x.lastRecieved) =
        ((conns[k]?).map fun x => x.lastRecieved)) := by
  refine ⟨?_, ?_, ?_, ?_, ?_⟩
  · intro h
    simp [meshRecvCb, h]
  · intro h
    cases hidx : findEspIdx arg conns with
    | none => simp [meshRecvCb, hidx]
    | some i =>
        obtain ⟨c, hc⟩ := findEspIdx_getElem arg conns i hidx
        simp [meshRecvCb, hidx, hc, h]
  · intro i root hidx hdec hrec
    obtain ⟨c, hc⟩ := findEspIdx_getElem arg conns i hidx
    cases hty : root.type <;> rw [hty] at hrec <;>
      simp [MeshPackageType.recognized] at hrec
    simp [meshRecvCb, hidx, hc, hdec, hty]
  · intro i root hidx hdec hrec
    obtain ⟨c, hc⟩ := findEspIdx_getElem arg conns i hidx
    cases hty : root.type
    case NODE_SYNC_REQUEST =>
        simp only [meshRecvCb, hidx, hc, hdec, hty]
        exact touch_getElem_self (by rw [getElem?_updateAt_self, hc]; rfl)
    case NODE_SYNC_REPLY =>
        simp only [meshRecvCb, hidx, hc, hdec, hty]
        exact touch_getElem_self (by rw [getElem?_updateAt_self, hc]; rfl)
    case TIME_SYNC =>
        simp only [meshRecvCb, hidx, hc, hdec, hty]
        exact touch_getElem_self (by rw [getElem?_updateAt_self, hc]; rfl)
    case SINGLE =>
        simp only [meshRecvCb, hidx, hc, hdec, hty]
        by_cases hd : (root.dest == cfg.chipId) = true
        · simp only [hd, if_true]
          exact touch_getElem_self hc
        · simp only [hd, Bool.false_eq_true, if_false]
          obtain ⟨c', hc'⟩ := getElem?_isSome_len
            ((sendPackage (findConnectionIdx root.dest conns) data conns).1) conns
            (sendPackage_length _ data conns) i c hc
          exact touch_getElem_self hc'
    case BROADCAST =>
        simp only [meshRecvCb, hidx, hc, hdec, hty]
        obtain ⟨c', hc'⟩ := getElem?_isSome_len
          ((broadcastGo data i 0 conns).1) conns
          (broadcastGo_length data i conns 0) i c hc
        exact touch_getElem_self hc'
    case other tag =>
        rw [hty] at hrec
        simp [MeshPackageType.recognized] at hrec
  · intro i k hidx hk
    obtain ⟨c, hc⟩ := findEspIdx_getElem arg conns i hidx
    cases hdec : decode data with
    | none => simp [meshRecvCb, hidx, hc, hdec]
    | some root =>
        cases hty : root.type
        case NODE_SYNC_REQUEST =>
            simp only [meshRecvCb, hidx, hc, hdec, hty]
            rw [touch_getElem_ne hk, getElem?_updateAt_ne _ hk]
        case NODE_SYNC_REPLY =>
            simp only [meshRecvCb, hidx, hc, hdec, hty]
            rw [touch_getElem_ne hk, getElem?_updateAt_ne _ hk]
        case TIME_SYNC =>
            simp only [meshRecvCb, hidx, hc, hdec, hty]
            rw [touch_getElem_ne hk, getElem?_updateAt_ne _ hk]
        case SINGLE =>
            simp only [meshRecvCb, hidx, hc, hdec, hty]
            by_cases hd : (root.dest == cfg.chipId) = true
            · simp only [hd, if_true]
              rw [touch_getElem_ne hk]
            · simp only [hd, Bool.false_eq_true, if_false]
              rw [touch_getElem_ne hk]
              exact sendPackage_lastRecieved _ data conns k
        case BROADCAST =>
            simp only [meshRecvCb, hidx, hc, hdec, hty]
            rw [touch_getElem_ne hk]
            exact broadcastGo_lastRecieved data i conns 0 k
        case other tag =>
            simp [meshRecvCb, hidx, hc, hdec, hty]

/-- C6 witness: a notification on an unregistered handle changes nothing. -/
theorem claim6_witness :
    findEspIdx 7 ([] : List MeshConnection) = none ∧
    meshRecvCb (MeshConfig.mk 5555 10 7) (fun c _ => (c, [])) (fun c _ => (c, []))
      (fun _ => none) 0 [] 7 "x" = ([], []) :=
  ⟨rfl,
    (claim6 (MeshConfig.mk 5555 10 7) (fun c _ => (c, [])) (fun c _ => (c, []))
      (fun _ => none) 0 [] 7 "x").1 rfl⟩

/-! ### C8: unicast routing -/

/-- C8: for a received `SINGLE` message — `dest` equal to the own chip id
delivers the payload with `from` to the application callback and forwards
nothing, every outbound queue unchanged; otherwise the raw received bytes
(`data`, byte-identical) go to the connection `findConnection(dest)`
resolves, either as an immediate transport send (`sendReady`) or appended
to that connection's outbound queue; and when no connection resolves,
nothing is emitted and no connection's outbound queue changes. -/
theorem claim8 (cfg : MeshConfig)
    (handleNodeSync handleTimeSync :
      MeshConnection → WireMsg → MeshConnection × List MeshEvent)
    (decode : String → Option WireMsg) (now : Nat)
    (conns : List MeshConnection) (arg : Nat) (data : String) (i : Nat)
    (c : MeshConnection) (root : WireMsg)
    (hidx : findEspIdx arg conns = some i) (hget : conns[i]? = some c)
    (hdec : decode data = some root) (hty : root.type = .SINGLE) :
    (root.dest = cfg.chipId →
      (meshRecvCb cfg handleNodeSync handleTimeSync decode now conns arg data).2 =
        [.deliver root.fromId root.msg] ∧
      ∀ k : Nat, ((((meshRecvCb cfg handleNodeSync handleTimeSync decode now conns
          arg data).1)[k]?).map fun x => x.sendQueue) =
        ((conns[k]?).map fun x => x.sendQueue)) ∧
    (root.dest ≠ cfg.chipId → findConnectionIdx root.dest conns = none →
      (meshRecvCb cfg handleNodeSync handleTimeSync decode now conns arg data).2 =
        [] ∧
      ∀ k : Nat, ((((meshRecvCb cfg handleNodeSync handleTimeSync decode now conns
          arg data).1)[k]?).map fun x => x.sendQueue) =
        ((conns[k]?).map fun x => x.sendQueue)) ∧
    (∀ (j : Nat) (cj : MeshConnection), root.dest ≠ cfg.chipId →
      findConnectionIdx root.dest conns = some j → conns[j]? = some cj →
      (cj.sendReady = true →
        (meshRecvCb cfg handleNodeSync handleTimeSync decode now conns arg
          data).2 = [.espSend cj.esp_conn.id data] ∧
        ∀ k : Nat, ((((meshRecvCb cfg handleNodeSync handleTimeSync decode now
            conns arg data).1)[k]?).map fun x => x.sendQueue) =
          ((conns[k]?).map fun x => x.sendQueue)) ∧
      (cj.sendReady = false →
        (meshRecvCb cfg handleNodeSync handleTimeSync decode now conns arg
          data).2 = [] ∧
        ((((meshRecvCb cfg handleNodeSync handleTimeSync decode now conns arg
            data).1)[j]?).map fun x => x.sendQueue) =
          some (cj.sendQueue ++ [data]) ∧
        ∀ k : Nat, k ≠ j → ((((meshRecvCb cfg handleNodeSync handleTimeSync
            decode now conns arg data).1)[k]?).map fun x => x.sendQueue) =
          ((conns[k]?).map fun x => x.sendQueue))) := by
  refine ⟨?_, ?_, ?_⟩
  · intro hd
    have hbeq : (root.dest == cfg.chipId) = true := by simp [hd]
    simp only [meshRecvCb, hidx, hget, hdec, hty, hbeq, if_true]
    refine ⟨by simp, ?_⟩
    intro k
    exact getElem?_updateAt_map (fun x => { x with lastRecieved := now })
      (fun x => x.sendQueue) (fun x => rfl) i k conns
  · intro hd hnone
    have hbeq : (root.dest == cfg.chipId) = false := by simp [hd]
    simp only [meshRecvCb, hidx, hget, hdec, hty, hbeq, Bool.false_eq_true,
      if_false, hnone, sendPackage]
    refine ⟨by simp, ?_⟩
    intro k
    exact getElem?_updateAt_map (fun x => { x with lastRecieved := now })
      (fun x => x.sendQueue) (fun x => rfl) i k conns
  · intro j cj hd hfind hgetj
    have hbeq : (root.dest == cfg.chipId) = false := by simp [hd]
    constructor
    · intro hsr
      simp only [meshRecvCb, hidx, hget, hdec, hty, hbeq, Bool.false_eq_true,
        if_false, hfind, sendPackage, hgetj, hsr, if_true]
      refine ⟨by simp, ?_⟩
      intro k
      have h1 := getElem?_updateAt_map (fun x => { x with sendReady := false })
        (fun x => x.sendQueue) (fun x => rfl) j k conns
      have h2 := getElem?_updateAt_map (fun x => { x with lastRecieved := now })
        (fun x => x.sendQueue) (fun x => rfl) i k
        (updateAt (fun x => { x with sendReady := false }) j conns)
      exact h2.trans h1
    · intro hsr
      simp only [meshRecvCb, hidx, hget, hdec, hty, hbeq, Bool.false_eq_true,
        if_false, hfind, sendPackage, hgetj, hsr, if_false]
      refine ⟨by simp, ?_, ?_⟩
      · have h2 := getElem?_updateAt_map (fun x => { x with lastRecieved := now })
          (fun x => x.sendQueue) (fun x => rfl) i j
          (updateAt (fun x => { x with sendQueue := x.sendQueue ++ [data] }) j conns)
        refine h2.trans ?_
        rw [getElem?_updateAt_self, hgetj]
        rfl
      · intro k hkj
        have h2 := getElem?_updateAt_map (fun x => { x with lastRecieved := now })
          (fun x => x.sendQueue) (fun x => rfl) i k
          (updateAt (fun x => { x with sendQueue := x.sendQueue ++ [data] }) j conns)
        refine h2.trans ?_
        rw [getElem?_updateAt_ne _ hkj]

/-- C8 witness: a unicast for an unknown destination (99 resolves to no
direct connection and no subtree hit) is dropped: no event, no queue
change. -/
theorem claim8_witness :
    findEspIdx 1 [testConn 1 10 SubForest.nil] = some 0 ∧
    findConnectionIdx 99 [testConn 1 10 SubForest.nil] = none ∧
    (meshRecvCb (MeshConfig.mk 5555 10 7) (fun c _ => (c, [])) (fun c _ => (c, []))
      (fun _ => some (WireMsg.mk .SINGLE 5 99 "hi")) 50
      [testConn 1 10 SubForest.nil] 1 "raw").2 = [] :=
  ⟨rfl, by decide,
    ((claim8 (MeshConfig.mk 5555 10 7) (fun c _ => (c, [])) (fun c _ => (c, []))
      (fun _ => some (WireMsg.mk .SINGLE 5 99 "hi")) 50
      [testConn 1 10 SubForest.nil] 1 "raw" 0 (testConn 1 10 SubForest.nil)
      (WireMsg.mk .SINGLE 5 99 "hi") rfl rfl rfl rfl).2.1
      (by decide) (by decide)).1⟩

/-! ### C5: broadcast fan-out -/

/-- The three-connection registry of the broadcast example; the message
arrives on handle 1. -/
def broadcastConns : List MeshConnection :=
  [testConn 1 11 .nil, testConn 2 12 .nil, testConn 3 13 .nil]

/-- A decoder standing for a successfully parsed `Broadcast\x7bfrom:5\x7d`
with payload `"hi"`. -/
def decodeBroadcast : String → Option WireMsg :=
  fun _ => some { type := .BROADCAST, fromId := 5, dest := 0, msg := "hi" }

/-- Protocol handlers that do nothing (the broadcast path never calls
them). -/
def idleHandler : MeshConnection → WireMsg → MeshConnection × List MeshEvent :=
  fun c _ => (c, [])

/-- C5: COUNTEREXAMPLE.  The claim states the handler delivers the payload
to the local callback and *then* forwards.  On registry `{C1, C2, C3}` with
a broadcast arriving on C1, the source (lines 344-345) calls
`broadcastMessage` first and `receivedCallback` after: the emitted trace is
the two forwards followed by the delivery, so the first call made is not
the local delivery. -/
theorem claim5_counterexample :
    (meshRecvCb (MeshConfig.mk 5555 10 7) idleHandler idleHandler
        decodeBroadcast 99 broadcastConns 1 "raw").2 =
      [.forward 2 "raw", .forward 3 "raw", .deliver 5 "hi"] ∧
    (meshRecvCb (MeshConfig.mk 5555 10 7) idleHandler idleHandler
        decodeBroadcast 99 broadcastConns 1 "raw").2.head? ≠
      some (.deliver 5 "hi") ∧
    MeshEvent.deliver 5 "hi" ∈
      (meshRecvCb (MeshConfig.mk 5555 10 7) idleHandler idleHandler
        decodeBroadcast 99 broadcastConns 1 "raw").2 :=
  ⟨rfl, by decide, by decide⟩

/-- C5 (amended): a `Broadcast` received on a connection is forwarded,
unchanged, to every connection except the one it arrived on (in registry
order, never back to the arrival connection), and is delivered to the local
application callback exactly once — after the forwards, not before them:
the trace is the forwards followed by the single delivery. -/
theorem claim5_amended (cfg : MeshConfig)
    (handleNodeSync handleTimeSync :
      MeshConnection → WireMsg → MeshConnection × List MeshEvent)
    (decode : String → Option WireMsg) (now : Nat)
    (conns : List MeshConnection) (arg : Nat) (data : String) (i : Nat)
    (c : MeshConnection) (root : WireMsg)
    (hidx : findEspIdx arg conns = some i) (hget : conns[i]? = some c)
    (hdec : decode data = some root) (hty : root.type = .BROADCAST) :
    (meshRecvCb cfg handleNodeSync handleTimeSync decode now conns arg data).2 =
      ((conns.eraseIdx i).map fun x => MeshEvent.forward x.esp_conn.id data) ++
        [.deliver root.fromId root.msg] := by
  simp only [meshRecvCb, hidx, hget, hdec, hty]
  rw [broadcastGo_events data conns i 0 (Nat.zero_le i), Nat.sub_zero]

/-- C5 (amended) witness: the concrete three-connection fan-out. -/
theorem claim5_witness :
    findEspIdx 1 broadcastConns = some 0 ∧
    (meshRecvCb (MeshConfig.mk 5555 10 7) idleHandler idleHandler
        decodeBroadcast 99 broadcastConns 1 "raw").2 =
      ((broadcastConns.eraseIdx 0).map fun x =>
          MeshEvent.forward x.esp_conn.id "raw") ++ [.deliver 5 "hi"] :=
  ⟨rfl,
    claim5_amended (MeshConfig.mk 5555 10 7) idleHandler idleHandler
      decodeBroadcast 99 broadcastConns 1 "raw" 0 (testConn 1 11 .nil)
      (WireMsg.mk .BROADCAST 5 0 "hi") rfl rfl rfl rfl⟩

end EasyMesh
